import Mathlib

/-!
Verification of the satellite-data merge routine `merge` of
`src/groopm/stream_ext.pyx` (the GroopM stream extension).

The Python routine mutates caller-owned buffers; the shallow embedding
threads the buffers and cursors through an explicit state record and
models an out-of-range list access (Python `IndexError`) by `none`.
An instrumented copy of the loop additionally records every read of the
four input arrays, so that the safety claims about in-bounds access can
be stated about the reads themselves.
-/

namespace GroopM

/-- State of the caller-owned buffers and cursors handled by `merge`
(`src/groopm/stream_ext.pyx`): the two input runs with their satellite
index arrays, the two output buffers, and the two cursors `i`, `j`. -/
structure MState where
  x : List Int
  x_inds : List Int
  y : List Int
  y_inds : List Int
  out : List Int
  out_inds : List Int
  i : Nat
  j : Nat
  deriving DecidableEq, Repr

/-- Assignment `buf[k] = v` with Python list semantics: fails
(`IndexError`, modelled as `none`) when `k` is not a valid position. -/
def setE (l : List Int) (k : Nat) (v : Int) : Option (List Int) :=
  if k < l.length then some (l.set k v) else none

/-- The loop guard `j < y_len and (i==x_len or y[j] < x[i])` of line 20 of
`stream_ext.pyx`, with Python's short-circuit evaluation of `and`/`or`:
`y[j]` and `x[i]` are read only when the comparison itself is reached. -/
def guardEval (x_len y_len : Nat) (s : MState) : Option Bool :=
  if s.j < y_len then
    if s.i = x_len then some true
    else do
      let yj ← s.y[s.j]?
      let xi ← s.x[s.i]?
      some (decide (yj < xi))
  else some false

/-- The loop `for k in range(out_len)` of `merge`, one unit of `fuel` per
iteration, `k` being the loop counter.  When the guard holds the routine
emits `y[j]`/`y_inds[j]` and advances `j`, otherwise it emits
`x[i]`/`x_inds[i]` and advances `i`, writing value and paired index into
`out[k]` and `out_inds[k]`. -/
def mergeLoop (x_len y_len : Nat) (k fuel : Nat) (s : MState) : Option MState :=
  match fuel with
  | 0 => some s
  | fuel' + 1 => do
    let g ← guardEval x_len y_len s
    if g then do
      let v ← s.y[s.j]?
      let o ← setE s.out k v
      let w ← s.y_inds[s.j]?
      let oi ← setE s.out_inds k w
      mergeLoop x_len y_len (k + 1) fuel' { s with out := o, out_inds := oi, j := s.j + 1 }
    else do
      let v ← s.x[s.i]?
      let o ← setE s.out k v
      let w ← s.x_inds[s.i]?
      let oi ← setE s.out_inds k w
      mergeLoop x_len y_len (k + 1) fuel' { s with out := o, out_inds := oi, i := s.i + 1 }

/-- Shallow embedding of `merge` (lines 8–28 of `src/groopm/stream_ext.pyx`)
with the source's parameter order.  Mutation of the caller's buffers is
modelled by returning the final state of all buffers and cursors. -/
def merge (x_len : Nat) (x x_inds : List Int) (y_len : Nat) (y y_inds : List Int)
    (out_len : Nat) (out out_inds : List Int) (i j : Nat) : Option MState :=
  mergeLoop x_len y_len 0 out_len ⟨x, x_inds, y, y_inds, out, out_inds, i, j⟩

/-- A single read of one of the four input arrays at a given position:
`rX p` reads `x[p]`, `rXi p` reads `x_inds[p]`, `rY p` reads `y[p]`,
`rYi p` reads `y_inds[p]`. -/
inductive ReadEv where
  | rX (p : Nat)
  | rXi (p : Nat)
  | rY (p : Nat)
  | rYi (p : Nat)
  deriving DecidableEq, Repr

/-- A read event is within the declared length of the run it reads. -/
def readOK (x_len y_len : Nat) : ReadEv → Prop
  | .rX p => p < x_len
  | .rXi p => p < x_len
  | .rY p => p < y_len
  | .rYi p => p < y_len

/-- Instrumented copy of `guardEval` that also returns the list of reads
the guard performed, in evaluation order. -/
def guardEvalTr (x_len y_len : Nat) (s : MState) : Option (Bool × List ReadEv) :=
  if s.j < y_len then
    if s.i = x_len then some (true, [])
    else do
      let yj ← s.y[s.j]?
      let xi ← s.x[s.i]?
      some (decide (yj < xi), [ReadEv.rY s.j, ReadEv.rX s.i])
  else some (false, [])

/-- Instrumented copy of `mergeLoop` that also returns the list of all
reads of `x`, `x_inds`, `y`, `y_inds` performed, in evaluation order. -/
def mergeLoopTr (x_len y_len : Nat) (k fuel : Nat) (s : MState) :
    Option (MState × List ReadEv) :=
  match fuel with
  | 0 => some (s, [])
  | fuel' + 1 => do
    let gt ← guardEvalTr x_len y_len s
    if gt.1 then do
      let v ← s.y[s.j]?
      let o ← setE s.out k v
      let w ← s.y_inds[s.j]?
      let oi ← setE s.out_inds k w
      let r ← mergeLoopTr x_len y_len (k + 1) fuel'
        { s with out := o, out_inds := oi, j := s.j + 1 }
      some (r.1, gt.2 ++ [ReadEv.rY s.j, ReadEv.rYi s.j] ++ r.2)
    else do
      let v ← s.x[s.i]?
      let o ← setE s.out k v
      let w ← s.x_inds[s.i]?
      let oi ← setE s.out_inds k w
      let r ← mergeLoopTr x_len y_len (k + 1) fuel'
        { s with out := o, out_inds := oi, i := s.i + 1 }
      some (r.1, gt.2 ++ [ReadEv.rX s.i, ReadEv.rXi s.i] ++ r.2)

/-- The value/index pairs of a run of declared length `len` (the buffers
may be longer; only the first `len` entries belong to the run). -/
def runPairs (len : Nat) (vals inds : List Int) : List (Int × Int) :=
  (vals.take len).zip (inds.take len)

/-- Reference definition, following the spec's testable properties: the
fully sorted, stable, X-favoring merge of two runs of value/index pairs.
An element of the second run is emitted exactly when its value is
strictly smaller than the first run's current value. -/
def specMerge : List (Int × Int) → List (Int × Int) → List (Int × Int)
  | [], ys => ys
  | a :: xs, [] => a :: xs
  | a :: xs, b :: ys =>
    if b.1 < a.1 then b :: specMerge (a :: xs) ys
    else a :: specMerge xs (b :: ys)
  termination_by xs ys => xs.length + ys.length

/-- Ordering of value/index pairs by their value component. -/
def valLE (p q : Int × Int) : Prop := p.1 ≤ q.1

/-- Boolean test that a pair carries the value `v`. -/
def valEq (v : Int) (p : Int × Int) : Bool := decide (p.1 = v)

theorem specMerge_nil_left (ys : List (Int × Int)) : specMerge [] ys = ys := by
  simp [specMerge]

theorem specMerge_nil_right (xs : List (Int × Int)) : specMerge xs [] = xs := by
  cases xs <;> simp [specMerge]

theorem specMerge_cons_cons_lt (a b : Int × Int) (xs ys : List (Int × Int))
    (h : b.1 < a.1) :
    specMerge (a :: xs) (b :: ys) = b :: specMerge (a :: xs) ys := by
  simp [specMerge, h]

theorem specMerge_cons_cons_ge (a b : Int × Int) (xs ys : List (Int × Int))
    (h : ¬ b.1 < a.1) :
    specMerge (a :: xs) (b :: ys) = a :: specMerge xs (b :: ys) := by
  simp [specMerge, h]

theorem specMerge_perm (xs ys : List (Int × Int)) : (specMerge xs ys).Perm (xs ++ ys) := by
  induction xs, ys using specMerge.induct with
  | case1 ys => simp [specMerge]
  | case2 a xs => simp [specMerge]
  | case3 a xs b ys h ih =>
    rw [specMerge_cons_cons_lt a b xs ys h]
    exact (ih.cons b).trans List.perm_middle.symm
  | case4 a xs b ys h ih =>
    rw [specMerge_cons_cons_ge a b xs ys h]
    simpa using ih.cons a

theorem length_specMerge (xs ys : List (Int × Int)) :
    (specMerge xs ys).length = xs.length + ys.length := by
  simpa using (specMerge_perm xs ys).length_eq

theorem specMerge_sorted (xs ys : List (Int × Int)) :
    xs.Pairwise valLE → ys.Pairwise valLE → (specMerge xs ys).Pairwise valLE := by
  induction xs, ys using specMerge.induct with
  | case1 ys => intro _ h; simpa [specMerge] using h
  | case2 a xs => intro h _; simpa [specMerge] using h
  | case3 a xs b ys h ih =>
    intro hxs hys
    rw [specMerge_cons_cons_lt a b xs ys h]
    refine List.pairwise_cons.mpr ⟨?_, ih hxs hys.of_cons⟩
    intro c hc
    rcases (List.mem_append.mp ((specMerge_perm (a :: xs) ys).mem_iff.mp hc)) with hm | hm
    · rcases List.mem_cons.mp hm with rfl | hm
      · exact le_of_lt h
      · exact le_trans (le_of_lt h) (List.rel_of_pairwise_cons hxs hm)
    · exact List.rel_of_pairwise_cons hys hm
  | case4 a xs b ys h ih =>
    intro hxs hys
    rw [specMerge_cons_cons_ge a b xs ys h]
    refine List.pairwise_cons.mpr ⟨?_, ih hxs.of_cons hys⟩
    intro c hc
    rcases (List.mem_append.mp ((specMerge_perm xs (b :: ys)).mem_iff.mp hc)) with hm | hm
    · exact List.rel_of_pairwise_cons hxs hm
    · rcases List.mem_cons.mp hm with rfl | hm
      · exact not_lt.mp h
      · exact le_trans (not_lt.mp h) (List.rel_of_pairwise_cons hys hm)

theorem specMerge_filter (v : Int) (xs ys : List (Int × Int)) :
    xs.Pairwise valLE →
    (specMerge xs ys).filter (valEq v) =
      xs.filter (valEq v) ++ ys.filter (valEq v) := by
  induction xs, ys using specMerge.induct with
  | case1 ys => intro _; simp [specMerge]
  | case2 a xs => intro _; simp [specMerge]
  | case3 a xs b ys h ih =>
    intro hxs
    rw [specMerge_cons_cons_lt a b xs ys h]
    by_cases hv : b.1 = v
    · have hnil : (a :: xs).filter (valEq v) = [] := by
        rw [List.filter_eq_nil_iff]
        intro c hc
        have hac : a.1 ≤ c.1 := by
          rcases List.mem_cons.mp hc with rfl | hm
          · exact le_refl _
          · exact List.rel_of_pairwise_cons hxs hm
        have : v < c.1 := lt_of_lt_of_le (hv ▸ h) hac
        simp only [valEq, decide_eq_true_eq]
        omega
      calc (b :: specMerge (a :: xs) ys).filter (valEq v)
          = b :: (specMerge (a :: xs) ys).filter (valEq v) := by
            simp [List.filter_cons, valEq, hv]
        _ = b :: ((a :: xs).filter (valEq v) ++ ys.filter (valEq v)) := by rw [ih hxs]
        _ = (a :: xs).filter (valEq v) ++ ((b :: ys).filter (valEq v)) := by
            rw [hnil]
            simp [List.filter_cons, valEq, hv]
    · calc (b :: specMerge (a :: xs) ys).filter (valEq v)
          = (specMerge (a :: xs) ys).filter (valEq v) := by
            simp [List.filter_cons, valEq, hv]
        _ = (a :: xs).filter (valEq v) ++ ys.filter (valEq v) := ih hxs
        _ = (a :: xs).filter (valEq v) ++ ((b :: ys).filter (valEq v)) := by
            simp [List.filter_cons, valEq, hv]
  | case4 a xs b ys h ih =>
    intro hxs
    rw [specMerge_cons_cons_ge a b xs ys h]
    by_cases hv : a.1 = v
    · calc (a :: specMerge xs (b :: ys)).filter (valEq v)
          = a :: (specMerge xs (b :: ys)).filter (valEq v) := by
            simp [List.filter_cons, valEq, hv]
        _ = a :: (xs.filter (valEq v) ++ (b :: ys).filter (valEq v)) := by
            rw [ih hxs.of_cons]
        _ = ((a :: xs).filter (valEq v)) ++ (b :: ys).filter (valEq v) := by
            simp [List.filter_cons, valEq, hv]
    · calc (a :: specMerge xs (b :: ys)).filter (valEq v)
          = (specMerge xs (b :: ys)).filter (valEq v) := by
            simp [List.filter_cons, valEq, hv]
        _ = xs.filter (valEq v) ++ (b :: ys).filter (valEq v) := ih hxs.of_cons
        _ = ((a :: xs).filter (valEq v)) ++ (b :: ys).filter (valEq v) := by
            simp [List.filter_cons, valEq, hv]

theorem length_runPairs (len : Nat) (vals inds : List Int)
    (hv : len ≤ vals.length) (hi : len ≤ inds.length) :
    (runPairs len vals inds).length = len := by
  simp [runPairs]
  omega

theorem runPairs_getElem? (len : Nat) (vals inds : List Int) (p : Nat)
    (hp : p < len) (hv : len ≤ vals.length) (hi : len ≤ inds.length) :
    (runPairs len vals inds)[p]? =
      some (vals.get ⟨p, Nat.lt_of_lt_of_le hp hv⟩,
        inds.get ⟨p, Nat.lt_of_lt_of_le hp hi⟩) := by
  have h1 : p < (runPairs len vals inds).length := by
    rw [length_runPairs len vals inds hv hi]; exact hp
  rw [List.getElem?_eq_getElem h1]
  simp [runPairs, List.getElem_zip, List.getElem_take, List.get_eq_getElem]

theorem runPairs_drop_cons (len : Nat) (vals inds : List Int) (c : Nat)
    (hc : c < len) (hv : len ≤ vals.length) (hi : len ≤ inds.length) :
    (runPairs len vals inds).drop c =
      (vals.get ⟨c, Nat.lt_of_lt_of_le hc hv⟩,
        inds.get ⟨c, Nat.lt_of_lt_of_le hc hi⟩) ::
        (runPairs len vals inds).drop (c + 1) := by
  have h1 : c < (runPairs len vals inds).length := by
    rw [length_runPairs len vals inds hv hi]; exact hc
  rw [List.drop_eq_getElem_cons h1]
  have := runPairs_getElem? len vals inds c hc hv hi
  rw [List.getElem?_eq_getElem h1] at this
  rw [Option.some.injEq] at this
  rw [this]

theorem runPairs_drop_nil (len : Nat) (vals inds : List Int) (c : Nat)
    (hc : len ≤ c) (hv : len ≤ vals.length) (hi : len ≤ inds.length) :
    (runPairs len vals inds).drop c = [] := by
  apply List.drop_eq_nil_of_le
  rw [length_runPairs len vals inds hv hi]
  exact hc

theorem runPairs_map_fst (len : Nat) (vals inds : List Int)
    (hv : len ≤ vals.length) (hi : len ≤ inds.length) :
    (runPairs len vals inds).map Prod.fst = vals.take len := by
  apply List.map_fst_zip
  simp
  omega

theorem runPairs_map_snd (len : Nat) (vals inds : List Int)
    (hv : len ≤ vals.length) (hi : len ≤ inds.length) :
    (runPairs len vals inds).map Prod.snd = inds.take len := by
  apply List.map_snd_zip
  simp
  omega

theorem runPairs_pairwise (len : Nat) (vals inds : List Int)
    (hv : len ≤ vals.length) (hi : len ≤ inds.length)
    (hs : (vals.take len).Pairwise (· ≤ ·)) :
    (runPairs len vals inds).Pairwise valLE := by
  rw [List.pairwise_iff_getElem] at hs ⊢
  intro p q hp hq hpq
  have hlen : (runPairs len vals inds).length = len :=
    length_runPairs len vals inds hv hi
  have hp' : p < (vals.take len).length := by simp; omega
  have hq' : q < (vals.take len).length := by simp; omega
  have := hs p q hp' hq' hpq
  simpa [runPairs, valLE, List.getElem_zip, List.getElem_take] using this

theorem take_set_succ (l : List Int) (k : Nat) (v : Int) (h : k < l.length) :
    (l.set k v).take (k + 1) = l.take k ++ [v] := by
  have hA : (l.take k).length = k := by simp; omega
  rw [List.set_take, ← List.take_concat_get l k h, List.concat_eq_append,
    List.set_eq_take_cons_drop v (by simp [hA]; omega)]
  rw [List.take_append_of_le_length (by omega), List.take_of_length_le (by omega),
    List.drop_eq_nil_of_le (by simp [hA])]

theorem runPairs_drop_cons' (len : Nat) (vals inds : List Int) (c : Nat)
    (vv iv : Int) (hc : c < len) (hv : len ≤ vals.length) (hi : len ≤ inds.length)
    (hvv : vals[c]? = some vv) (hiv : inds[c]? = some iv) :
    (runPairs len vals inds).drop c =
      (vv, iv) :: (runPairs len vals inds).drop (c + 1) := by
  rw [runPairs_drop_cons len vals inds c hc hv hi]
  rw [List.getElem?_eq_getElem (Nat.lt_of_lt_of_le hc hv)] at hvv
  rw [List.getElem?_eq_getElem (Nat.lt_of_lt_of_le hc hi)] at hiv
  simp only [Option.some.injEq] at hvv hiv
  simp only [List.get_eq_getElem]
  rw [hvv, hiv]

theorem guardEval_eq_tr (x_len y_len : Nat) (s : MState) :
    guardEval x_len y_len s = (guardEvalTr x_len y_len s).map Prod.fst := by
  unfold guardEval guardEvalTr
  split
  · split
    · rfl
    · cases hy : s.y[s.j]? <;> cases hx : s.x[s.i]? <;> simp
  · rfl

theorem mergeLoop_eq_tr (x_len y_len : Nat) :
    ∀ (fuel k : Nat) (s : MState),
      mergeLoop x_len y_len k fuel s = (mergeLoopTr x_len y_len k fuel s).map Prod.fst := by
  intro fuel
  induction fuel with
  | zero => intro k s; rfl
  | succ fuel ih =>
    intro k s
    simp only [mergeLoop, mergeLoopTr]
    rw [guardEval_eq_tr]
    cases hg : guardEvalTr x_len y_len s with
    | none => simp
    | some gt =>
      obtain ⟨g, tg⟩ := gt
      cases g
      · simp only [Option.bind_eq_bind, Option.map_some', Option.some_bind,
          Bool.false_eq_true, if_false]
        cases hv : s.x[s.i]? with
        | none => simp [hv]
        | some v =>
          cases ho : setE s.out k v with
          | none => simp [hv, ho]
          | some o =>
            cases hw : s.x_inds[s.i]? with
            | none => simp [hv, ho, hw]
            | some w =>
              cases hoi : setE s.out_inds k w with
              | none => simp [hv, ho, hw, hoi]
              | some oi =>
                simp only [Option.some_bind, ho, hw, hoi]
                rw [ih]
                cases hr : mergeLoopTr x_len y_len (k + 1) fuel
                  { s with out := o, out_inds := oi, i := s.i + 1 } <;> simp [hr]
      · simp only [Option.bind_eq_bind, Option.map_some', Option.some_bind, if_true]
        cases hv : s.y[s.j]? with
        | none => simp [hv]
        | some v =>
          cases ho : setE s.out k v with
          | none => simp [hv, ho]
          | some o =>
            cases hw : s.y_inds[s.j]? with
            | none => simp [hv, ho, hw]
            | some w =>
              cases hoi : setE s.out_inds k w with
              | none => simp [hv, ho, hw, hoi]
              | some oi =>
                simp only [Option.some_bind, ho, hw, hoi]
                rw [ih]
                cases hr : mergeLoopTr x_len y_len (k + 1) fuel
                  { s with out := o, out_inds := oi, j := s.j + 1 } <;> simp [hr]

theorem guardEvalTr_true_exhausted (x_len y_len : Nat) (s : MState)
    (h1 : s.i = x_len) (h2 : s.j < y_len) :
    guardEvalTr x_len y_len s = some (true, []) := by
  simp [guardEvalTr, h1, h2]

theorem guardEvalTr_cmp (x_len y_len : Nat) (s : MState) (yv xv : Int)
    (h1 : ¬ s.i = x_len) (h2 : s.j < y_len)
    (hyv : s.y[s.j]? = some yv) (hxv : s.x[s.i]? = some xv) :
    guardEvalTr x_len y_len s =
      some (decide (yv < xv), [ReadEv.rY s.j, ReadEv.rX s.i]) := by
  simp [guardEvalTr, h1, h2, hyv, hxv]

theorem guardEvalTr_false_y_done (x_len y_len : Nat) (s : MState)
    (h : ¬ s.j < y_len) :
    guardEvalTr x_len y_len s = some (false, []) := by
  simp [guardEvalTr, h]

theorem mergeLoopTr_step_y (x_len y_len k fuel : Nat) (s : MState)
    (tg : List ReadEv) (yv yw : Int)
    (hguard : guardEvalTr x_len y_len s = some (true, tg))
    (hyv : s.y[s.j]? = some yv) (hyw : s.y_inds[s.j]? = some yw)
    (hko : k < s.out.length) (hkoi : k < s.out_inds.length) :
    mergeLoopTr x_len y_len k (fuel + 1) s =
      (mergeLoopTr x_len y_len (k + 1) fuel
        { s with out := s.out.set k yv, out_inds := s.out_inds.set k yw, j := s.j + 1 }).bind
        (fun r => some (r.1, tg ++ [ReadEv.rY s.j, ReadEv.rYi s.j] ++ r.2)) := by
  simp only [mergeLoopTr]
  rw [hguard]
  simp [hyv, hyw, setE, hko, hkoi]

theorem mergeLoopTr_step_x (x_len y_len k fuel : Nat) (s : MState)
    (tg : List ReadEv) (xv xw : Int)
    (hguard : guardEvalTr x_len y_len s = some (false, tg))
    (hxv : s.x[s.i]? = some xv) (hxw : s.x_inds[s.i]? = some xw)
    (hko : k < s.out.length) (hkoi : k < s.out_inds.length) :
    mergeLoopTr x_len y_len k (fuel + 1) s =
      (mergeLoopTr x_len y_len (k + 1) fuel
        { s with out := s.out.set k xv, out_inds := s.out_inds.set k xw, i := s.i + 1 }).bind
        (fun r => some (r.1, tg ++ [ReadEv.rX s.i, ReadEv.rXi s.i] ++ r.2)) := by
  simp only [mergeLoopTr]
  rw [hguard]
  simp [hxv, hxw, setE, hko, hkoi]

/-- Conclusion of the loop invariant: the instrumented loop succeeds, the
input buffers are returned unchanged, the cursors advance monotonically by
`fuel` in total, the output buffers are the old contents with positions
`k .. k+fuel-1` overwritten by the corresponding slice of the fully sorted
merge of the two remaining tails, and every recorded read is in bounds. -/
abbrev LoopConc (x_len y_len fuel k : Nat) (s : MState) : Prop :=
  ∃ (s' : MState) (tr : List ReadEv),
    mergeLoopTr x_len y_len k fuel s = some (s', tr) ∧
    s'.x = s.x ∧ s'.x_inds = s.x_inds ∧ s'.y = s.y ∧ s'.y_inds = s.y_inds ∧
    s.i ≤ s'.i ∧ s'.i ≤ x_len ∧ s.j ≤ s'.j ∧ s'.j ≤ y_len ∧
    s'.i + s'.j = s.i + s.j + fuel ∧
    s'.out = s.out.take k ++
      ((specMerge ((runPairs x_len s.x s.x_inds).drop s.i)
        ((runPairs y_len s.y s.y_inds).drop s.j)).take fuel).map Prod.fst ++
      s.out.drop (k + fuel) ∧
    s'.out_inds = s.out_inds.take k ++
      ((specMerge ((runPairs x_len s.x s.x_inds).drop s.i)
        ((runPairs y_len s.y s.y_inds).drop s.j)).take fuel).map Prod.snd ++
      s.out_inds.drop (k + fuel) ∧
    (∀ ev ∈ tr, readOK x_len y_len ev)

/-- The loop invariant: under the caller's preconditions the conclusion
`LoopConc` holds for a run of `fuel` iterations starting at position `k`. -/
abbrev LoopSpec (x_len y_len fuel : Nat) : Prop :=
  ∀ (k : Nat) (s : MState),
    s.i ≤ x_len → s.j ≤ y_len →
    x_len ≤ s.x.length → x_len ≤ s.x_inds.length →
    y_len ≤ s.y.length → y_len ≤ s.y_inds.length →
    k + fuel ≤ s.out.length → k + fuel ≤ s.out_inds.length →
    fuel ≤ (x_len - s.i) + (y_len - s.j) →
    LoopConc x_len y_len fuel k s

theorem emitY_step (x_len y_len fuel k : Nat) (s : MState)
    (ih : LoopSpec x_len y_len fuel)
    (tg : List ReadEv) (yv yw : Int)
    (hguard : guardEvalTr x_len y_len s = some (true, tg))
    (htg : ∀ ev ∈ tg, readOK x_len y_len ev)
    (hyv : s.y[s.j]? = some yv) (hyw : s.y_inds[s.j]? = some yw)
    (hj : s.j < y_len)
    (hm : specMerge ((runPairs x_len s.x s.x_inds).drop s.i)
            ((runPairs y_len s.y s.y_inds).drop s.j) =
          (yv, yw) :: specMerge ((runPairs x_len s.x s.x_inds).drop s.i)
            ((runPairs y_len s.y s.y_inds).drop (s.j + 1)))
    (hix : s.i ≤ x_len)
    (hx : x_len ≤ s.x.length) (hxi : x_len ≤ s.x_inds.length)
    (hy : y_len ≤ s.y.length) (hyi : y_len ≤ s.y_inds.length)
    (ho : k + (fuel + 1) ≤ s.out.length) (hoi : k + (fuel + 1) ≤ s.out_inds.length)
    (hfb : fuel ≤ (x_len - s.i) + (y_len - (s.j + 1))) :
    LoopConc x_len y_len (fuel + 1) k s := by
  have hko : k < s.out.length := by omega
  have hkoi : k < s.out_inds.length := by omega
  obtain ⟨s', tr, hrun, hsx, hsxi, hsy, hsyi, hii, hix2, hjj, hjy2, hsum, hout, houti, htr⟩ :=
    ih (k + 1) { s with out := s.out.set k yv, out_inds := s.out_inds.set k yw, j := s.j + 1 }
      (show s.i ≤ x_len from hix)
      (show s.j + 1 ≤ y_len by omega)
      (show x_len ≤ s.x.length from hx)
      (show x_len ≤ s.x_inds.length from hxi)
      (show y_len ≤ s.y.length from hy)
      (show y_len ≤ s.y_inds.length from hyi)
      (show k + 1 + fuel ≤ (s.out.set k yv).length by rw [List.length_set]; omega)
      (show k + 1 + fuel ≤ (s.out_inds.set k yw).length by rw [List.length_set]; omega)
      (show fuel ≤ (x_len - s.i) + (y_len - (s.j + 1)) from hfb)
  refine ⟨s', tg ++ [ReadEv.rY s.j, ReadEv.rYi s.j] ++ tr,
    ?_, hsx, hsxi, hsy, hsyi, hii, hix2, ?_, hjy2, ?_, ?_, ?_, ?_⟩
  · rw [mergeLoopTr_step_y x_len y_len k fuel s tg yv yw hguard hyv hyw hko hkoi, hrun]
    rfl
  · exact le_trans (Nat.le_succ s.j) hjj
  · have h1 : s'.i + s'.j = s.i + (s.j + 1) + fuel := hsum
    omega
  · rw [hout, hm]
    rw [take_set_succ s.out k yv hko,
      List.drop_set_of_lt yv s.out (show k < k + 1 + fuel by omega)]
    rw [List.take_succ_cons, List.map_cons]
    rw [show k + (fuel + 1) = k + 1 + fuel by omega]
    simp
  · rw [houti, hm]
    rw [take_set_succ s.out_inds k yw hkoi,
      List.drop_set_of_lt yw s.out_inds (show k < k + 1 + fuel by omega)]
    rw [List.take_succ_cons, List.map_cons]
    rw [show k + (fuel + 1) = k + 1 + fuel by omega]
    simp
  · intro ev hev
    rcases List.mem_append.mp hev with hev1 | hev2
    · rcases List.mem_append.mp hev1 with hev3 | hev4
      · exact htg ev hev3
      · rcases List.mem_cons.mp hev4 with rfl | hev5
        · exact hj
        · rcases List.mem_cons.mp hev5 with rfl | hev6
          · exact hj
          · exact absurd hev6 (List.not_mem_nil ev)
    · exact htr ev hev2

theorem emitX_step (x_len y_len fuel k : Nat) (s : MState)
    (ih : LoopSpec x_len y_len fuel)
    (tg : List ReadEv) (xv xw : Int)
    (hguard : guardEvalTr x_len y_len s = some (false, tg))
    (htg : ∀ ev ∈ tg, readOK x_len y_len ev)
    (hxv : s.x[s.i]? = some xv) (hxw : s.x_inds[s.i]? = some xw)
    (hi2 : s.i < x_len)
    (hm : specMerge ((runPairs x_len s.x s.x_inds).drop s.i)
            ((runPairs y_len s.y s.y_inds).drop s.j) =
          (xv, xw) :: specMerge ((runPairs x_len s.x s.x_inds).drop (s.i + 1))
            ((runPairs y_len s.y s.y_inds).drop s.j))
    (hjy : s.j ≤ y_len)
    (hx : x_len ≤ s.x.length) (hxi : x_len ≤ s.x_inds.length)
    (hy : y_len ≤ s.y.length) (hyi : y_len ≤ s.y_inds.length)
    (ho : k + (fuel + 1) ≤ s.out.length) (hoi : k + (fuel + 1) ≤ s.out_inds.length)
    (hfb : fuel ≤ (x_len - (s.i + 1)) + (y_len - s.j)) :
    LoopConc x_len y_len (fuel + 1) k s := by
  have hko : k < s.out.length := by omega
  have hkoi : k < s.out_inds.length := by omega
  obtain ⟨s', tr, hrun, hsx, hsxi, hsy, hsyi, hii, hix2, hjj, hjy2, hsum, hout, houti, htr⟩ :=
    ih (k + 1) { s with out := s.out.set k xv, out_inds := s.out_inds.set k xw, i := s.i + 1 }
      (show s.i + 1 ≤ x_len by omega)
      (show s.j ≤ y_len from hjy)
      (show x_len ≤ s.x.length from hx)
      (show x_len ≤ s.x_inds.length from hxi)
      (show y_len ≤ s.y.length from hy)
      (show y_len ≤ s.y_inds.length from hyi)
      (show k + 1 + fuel ≤ (s.out.set k xv).length by rw [List.length_set]; omega)
      (show k + 1 + fuel ≤ (s.out_inds.set k xw).length by rw [List.length_set]; omega)
      (show fuel ≤ (x_len - (s.i + 1)) + (y_len - s.j) from hfb)
  refine ⟨s', tg ++ [ReadEv.rX s.i, ReadEv.rXi s.i] ++ tr,
    ?_, hsx, hsxi, hsy, hsyi, ?_, hix2, hjj, hjy2, ?_, ?_, ?_, ?_⟩
  · rw [mergeLoopTr_step_x x_len y_len k fuel s tg xv xw hguard hxv hxw hko hkoi, hrun]
    rfl
  · exact le_trans (Nat.le_succ s.i) hii
  · have h1 : s'.i + s'.j = s.i + 1 + s.j + fuel := hsum
    omega
  · rw [hout, hm]
    rw [take_set_succ s.out k xv hko,
      List.drop_set_of_lt xv s.out (show k < k + 1 + fuel by omega)]
    rw [List.take_succ_cons, List.map_cons]
    rw [show k + (fuel + 1) = k + 1 + fuel by omega]
    simp
  · rw [houti, hm]
    rw [take_set_succ s.out_inds k xw hkoi,
      List.drop_set_of_lt xw s.out_inds (show k < k + 1 + fuel by omega)]
    rw [List.take_succ_cons, List.map_cons]
    rw [show k + (fuel + 1) = k + 1 + fuel by omega]
    simp
  · intro ev hev
    rcases List.mem_append.mp hev with hev1 | hev2
    · rcases List.mem_append.mp hev1 with hev3 | hev4
      · exact htg ev hev3
      · rcases List.mem_cons.mp hev4 with rfl | hev5
        · exact hi2
        · rcases List.mem_cons.mp hev5 with rfl | hev6
          · exact hi2
          · exact absurd hev6 (List.not_mem_nil ev)
    · exact htr ev hev2

/-- Master invariant of the merge loop, by induction on the remaining
iteration count. -/
theorem mergeLoopTr_spec (x_len y_len : Nat) :
    ∀ fuel, LoopSpec x_len y_len fuel := by
  intro fuel
  induction fuel with
  | zero =>
    intro k s hix hjy hx hxi hy hyi ho hoi hf
    exact ⟨s, [], rfl, rfl, rfl, rfl, rfl, le_refl _, hix, le_refl _, hjy, by omega,
      by simp, by simp, by simp⟩
  | succ fuel ih =>
    intro k s hix hjy hx hxi hy hyi ho hoi hf
    by_cases hj : s.j < y_len
    · obtain ⟨yv, hyv⟩ : ∃ v, s.y[s.j]? = some v :=
        ⟨_, List.getElem?_eq_getElem (Nat.lt_of_lt_of_le hj hy)⟩
      obtain ⟨yw, hyw⟩ : ∃ v, s.y_inds[s.j]? = some v :=
        ⟨_, List.getElem?_eq_getElem (Nat.lt_of_lt_of_le hj hyi)⟩
      have hyt := runPairs_drop_cons' y_len s.y s.y_inds s.j yv yw hj hy hyi hyv hyw
      by_cases hi : s.i = x_len
      · have hxt : (runPairs x_len s.x s.x_inds).drop s.i = [] :=
          runPairs_drop_nil x_len s.x s.x_inds s.i (by omega) hx hxi
        have hm : specMerge ((runPairs x_len s.x s.x_inds).drop s.i)
              ((runPairs y_len s.y s.y_inds).drop s.j) =
            (yv, yw) :: specMerge ((runPairs x_len s.x s.x_inds).drop s.i)
              ((runPairs y_len s.y s.y_inds).drop (s.j + 1)) := by
          rw [hxt, specMerge_nil_left, specMerge_nil_left]
          exact hyt
        exact emitY_step x_len y_len fuel k s ih []
          yv yw (guardEvalTr_true_exhausted x_len y_len s hi hj) (by simp)
          hyv hyw hj hm hix hx hxi hy hyi ho hoi (by omega)
      · have hi2 : s.i < x_len := Nat.lt_of_le_of_ne hix hi
        obtain ⟨xv, hxv⟩ : ∃ v, s.x[s.i]? = some v :=
          ⟨_, List.getElem?_eq_getElem (Nat.lt_of_lt_of_le hi2 hx)⟩
        obtain ⟨xw, hxw⟩ : ∃ v, s.x_inds[s.i]? = some v :=
          ⟨_, List.getElem?_eq_getElem (Nat.lt_of_lt_of_le hi2 hxi)⟩
        have hxt := runPairs_drop_cons' x_len s.x s.x_inds s.i xv xw hi2 hx hxi hxv hxw
        have htg : ∀ ev ∈ [ReadEv.rY s.j, ReadEv.rX s.i], readOK x_len y_len ev := by
          intro ev hev
          rcases List.mem_cons.mp hev with rfl | hev1
          · exact hj
          · rcases List.mem_cons.mp hev1 with rfl | hev2
            · exact hi2
            · exact absurd hev2 (List.not_mem_nil ev)
        by_cases hcmp : yv < xv
        · have hguard : guardEvalTr x_len y_len s =
              some (true, [ReadEv.rY s.j, ReadEv.rX s.i]) := by
            rw [guardEvalTr_cmp x_len y_len s yv xv hi hj hyv hxv]
            simp [hcmp]
          have hm : specMerge ((runPairs x_len s.x s.x_inds).drop s.i)
                ((runPairs y_len s.y s.y_inds).drop s.j) =
              (yv, yw) :: specMerge ((runPairs x_len s.x s.x_inds).drop s.i)
                ((runPairs y_len s.y s.y_inds).drop (s.j + 1)) := by
            rw [hyt, hxt]
            exact specMerge_cons_cons_lt (xv, xw) (yv, yw) _ _ (by simpa using hcmp)
          exact emitY_step x_len y_len fuel k s ih [ReadEv.rY s.j, ReadEv.rX s.i]
            yv yw hguard htg hyv hyw hj hm hix hx hxi hy hyi ho hoi (by omega)
        · have hguard : guardEvalTr x_len y_len s =
              some (false, [ReadEv.rY s.j, ReadEv.rX s.i]) := by
            rw [guardEvalTr_cmp x_len y_len s yv xv hi hj hyv hxv]
            simp [hcmp]
          have hm : specMerge ((runPairs x_len s.x s.x_inds).drop s.i)
                ((runPairs y_len s.y s.y_inds).drop s.j) =
              (xv, xw) :: specMerge ((runPairs x_len s.x s.x_inds).drop (s.i + 1))
                ((runPairs y_len s.y s.y_inds).drop s.j) := by
            rw [hxt, hyt]
            rw [specMerge_cons_cons_ge (xv, xw) (yv, yw) _ _ (by simpa using hcmp)]
          exact emitX_step x_len y_len fuel k s ih [ReadEv.rY s.j, ReadEv.rX s.i]
            xv xw hguard htg hxv hxw hi2 hm hjy hx hxi hy hyi ho hoi (by omega)
    · have hi2 : s.i < x_len := by omega
      obtain ⟨xv, hxv⟩ : ∃ v, s.x[s.i]? = some v :=
        ⟨_, List.getElem?_eq_getElem (Nat.lt_of_lt_of_le hi2 hx)⟩
      obtain ⟨xw, hxw⟩ : ∃ v, s.x_inds[s.i]? = some v :=
        ⟨_, List.getElem?_eq_getElem (Nat.lt_of_lt_of_le hi2 hxi)⟩
      have hxt := runPairs_drop_cons' x_len s.x s.x_inds s.i xv xw hi2 hx hxi hxv hxw
      have hyt0 : (runPairs y_len s.y s.y_inds).drop s.j = [] :=
        runPairs_drop_nil y_len s.y s.y_inds s.j (by omega) hy hyi
      have hm : specMerge ((runPairs x_len s.x s.x_inds).drop s.i)
            ((runPairs y_len s.y s.y_inds).drop s.j) =
          (xv, xw) :: specMerge ((runPairs x_len s.x s.x_inds).drop (s.i + 1))
            ((runPairs y_len s.y s.y_inds).drop s.j) := by
        rw [hyt0, specMerge_nil_right, specMerge_nil_right]
        exact hxt
      exact emitX_step x_len y_len fuel k s ih []
        xv xw (guardEvalTr_false_y_done x_len y_len s hj) (by simp)
        hxv hxw hi2 hm hjy hx hxi hy hyi ho hoi (by omega)

/-- Summary contract for `merge` under the caller's preconditions,
obtained from the loop invariant: the call succeeds, inputs are unchanged,
cursors advance by `out_len` in total, and the output buffers hold the
first `out_len` pairs of the fully sorted merge of the two remaining
tails followed by the untouched old suffix. -/
theorem merge_spec (x_len : Nat) (x x_inds : List Int) (y_len : Nat) (y y_inds : List Int)
    (out_len : Nat) (out out_inds : List Int) (i j : Nat)
    (hi : i ≤ x_len) (hj : j ≤ y_len)
    (hx : x_len ≤ x.length) (hxi : x_len ≤ x_inds.length)
    (hy : y_len ≤ y.length) (hyi : y_len ≤ y_inds.length)
    (ho : out_len ≤ out.length) (hoi : out_len ≤ out_inds.length)
    (hlen : out_len ≤ (x_len - i) + (y_len - j)) :
    ∃ s' : MState,
      merge x_len x x_inds y_len y y_inds out_len out out_inds i j = some s' ∧
      s'.x = x ∧ s'.x_inds = x_inds ∧ s'.y = y ∧ s'.y_inds = y_inds ∧
      i ≤ s'.i ∧ s'.i ≤ x_len ∧ j ≤ s'.j ∧ s'.j ≤ y_len ∧
      s'.i + s'.j = i + j + out_len ∧
      s'.out = ((specMerge ((runPairs x_len x x_inds).drop i)
        ((runPairs y_len y y_inds).drop j)).take out_len).map Prod.fst ++
        out.drop out_len ∧
      s'.out_inds = ((specMerge ((runPairs x_len x x_inds).drop i)
        ((runPairs y_len y y_inds).drop j)).take out_len).map Prod.snd ++
        out_inds.drop out_len := by
  obtain ⟨s', tr, hrun, hsx, hsxi, hsy, hsyi, hii, hix2, hjj, hjy2, hsum, hout, houti, htr⟩ :=
    mergeLoopTr_spec x_len y_len out_len 0 ⟨x, x_inds, y, y_inds, out, out_inds, i, j⟩
      hi hj hx hxi hy hyi
      (show 0 + out_len ≤ out.length by omega)
      (show 0 + out_len ≤ out_inds.length by omega)
      hlen
  refine ⟨s', ?_, hsx, hsxi, hsy, hsyi, hii, hix2, hjj, hjy2, ?_, ?_, ?_⟩
  · show mergeLoop x_len y_len 0 out_len _ = some s'
    rw [mergeLoop_eq_tr, hrun]
    rfl
  · have h1 : s'.i + s'.j = i + j + out_len := hsum
    omega
  · rw [hout]
    simp
  · rw [houti]
    simp

/-- C1: for ascending runs, valid cursors and a satisfiable `out_len`, the
merge succeeds, its output prefix of length `out_len` is ascending, and it
equals the first `out_len` elements of the fully sorted merge (the unique
sorted permutation) of the remaining tails `x[i..x_len)` and `y[j..y_len)`. -/
theorem merge_sorted_prefix_spec (x_len : Nat) (x x_inds : List Int)
    (y_len : Nat) (y y_inds : List Int)
    (out_len : Nat) (out out_inds : List Int) (i j : Nat)
    (hsx : ((x.take x_len)).Sorted (· ≤ ·)) (hsy : ((y.take y_len)).Sorted (· ≤ ·))
    (hi : i ≤ x_len) (hj : j ≤ y_len)
    (hx : x_len ≤ x.length) (hxi : x_len ≤ x_inds.length)
    (hy : y_len ≤ y.length) (hyi : y_len ≤ y_inds.length)
    (ho : out_len ≤ out.length) (hoi : out_len ≤ out_inds.length)
    (hlen : out_len ≤ (x_len - i) + (y_len - j)) :
    ∃ s' : MState,
      merge x_len x x_inds y_len y y_inds out_len out out_inds i j = some s' ∧
      (s'.out.take out_len).Sorted (· ≤ ·) ∧
      ∀ z : List Int, z.Sorted (· ≤ ·) →
        z.Perm ((x.take x_len).drop i ++ (y.take y_len).drop j) →
        s'.out.take out_len = z.take out_len := by
  obtain ⟨s', hrun, _, _, _, _, _, _, _, _, _, hout, _⟩ :=
    merge_spec x_len x x_inds y_len y y_inds out_len out out_inds i j
      hi hj hx hxi hy hyi ho hoi hlen
  have hxtlen : ((runPairs x_len x x_inds).drop i).length = x_len - i := by
    rw [List.length_drop, length_runPairs x_len x x_inds hx hxi]
  have hytlen : ((runPairs y_len y y_inds).drop j).length = y_len - j := by
    rw [List.length_drop, length_runPairs y_len y y_inds hy hyi]
  have hMlen : (specMerge ((runPairs x_len x x_inds).drop i)
      ((runPairs y_len y y_inds).drop j)).length = (x_len - i) + (y_len - j) := by
    rw [length_specMerge, hxtlen, hytlen]
  have h1 : s'.out.take out_len =
      ((specMerge ((runPairs x_len x x_inds).drop i)
        ((runPairs y_len y y_inds).drop j)).map Prod.fst).take out_len := by
    rw [hout,
      List.take_append_of_le_length
        (by rw [List.length_map, List.length_take, hMlen]; omega),
      List.take_of_length_le
        (by rw [List.length_map, List.length_take, hMlen]; omega),
      List.map_take]
  have hMs : (specMerge ((runPairs x_len x x_inds).drop i)
      ((runPairs y_len y y_inds).drop j)).Pairwise valLE :=
    specMerge_sorted _ _
      ((runPairs_pairwise x_len x x_inds hx hxi hsx).drop)
      ((runPairs_pairwise y_len y y_inds hy hyi hsy).drop)
  have hMfs : ((specMerge ((runPairs x_len x x_inds).drop i)
      ((runPairs y_len y y_inds).drop j)).map Prod.fst).Pairwise (· ≤ ·) :=
    List.pairwise_map.mpr (hMs.imp (fun hpq => hpq))
  have hperm : ((specMerge ((runPairs x_len x x_inds).drop i)
      ((runPairs y_len y y_inds).drop j)).map Prod.fst).Perm
      ((x.take x_len).drop i ++ (y.take y_len).drop j) := by
    have hp := (specMerge_perm ((runPairs x_len x x_inds).drop i)
      ((runPairs y_len y y_inds).drop j)).map Prod.fst
    have heq : (((runPairs x_len x x_inds).drop i) ++
        ((runPairs y_len y y_inds).drop j)).map Prod.fst =
        (x.take x_len).drop i ++ (y.take y_len).drop j := by
      rw [List.map_append, List.map_drop, List.map_drop,
        runPairs_map_fst x_len x x_inds hx hxi, runPairs_map_fst y_len y y_inds hy hyi]
    rw [heq] at hp
    exact hp
  refine ⟨s', hrun, ?_, ?_⟩
  · rw [h1]
    exact hMfs.sublist (List.take_sublist _ _)
  · intro z hzs hzp
    have hz : z = (specMerge ((runPairs x_len x x_inds).drop i)
        ((runPairs y_len y y_inds).drop j)).map Prod.fst :=
      List.eq_of_perm_of_sorted (hzp.trans hperm.symm) hzs hMfs
    rw [h1, hz]

/-- C2: on the spec's concrete scenario (`x = [1,3,5]`, `x_inds = [10,11,12]`,
`y = [2,3,6]`, `y_inds = [20,21,22]`, `i = j = 0`, `out_len = 6`, output
buffers pre-filled with sentinel zeroes) the merge produces
`out = [1,2,3,3,5,6]` and `out_inds = [10,20,11,21,12,22]`, with X's `3`
preceding Y's `3`. -/
theorem merge_concrete_scenario :
    merge 3 [1, 3, 5] [10, 11, 12] 3 [2, 3, 6] [20, 21, 22] 6
      [0, 0, 0, 0, 0, 0] [0, 0, 0, 0, 0, 0] 0 0 =
    some ⟨[1, 3, 5], [10, 11, 12], [2, 3, 6], [20, 21, 22],
      [1, 2, 3, 3, 5, 6], [10, 20, 11, 21, 12, 22], 3, 3⟩ := by
  decide

theorem runPairs_mem_drop (len : Nat) (vals inds : List Int) (c : Nat) (e : Int × Int)
    (hv : len ≤ vals.length) (hi : len ≤ inds.length)
    (he : e ∈ (runPairs len vals inds).drop c) :
    ∃ p, c ≤ p ∧ p < len ∧ vals[p]? = some e.1 ∧ inds[p]? = some e.2 := by
  obtain ⟨q, hq, hqe⟩ := List.getElem_of_mem he
  have hlen : (runPairs len vals inds).length = len := length_runPairs len vals inds hv hi
  have hq' : c + q < len := by
    rw [List.length_drop, hlen] at hq
    omega
  have h3 : (runPairs len vals inds)[c + q]? = some e := by
    rw [← List.getElem?_drop, List.getElem?_eq_getElem hq, hqe]
  have h5 := (runPairs_getElem? len vals inds (c + q) hq' hv hi).symm.trans h3
  have h6 := Option.some.inj h5
  refine ⟨c + q, by omega, hq', ?_, ?_⟩
  · rw [List.getElem?_eq_getElem (Nat.lt_of_lt_of_le hq' hv), ← h6]
    simp [List.get_eq_getElem]
  · rw [List.getElem?_eq_getElem (Nat.lt_of_lt_of_le hq' hi), ← h6]
    simp [List.get_eq_getElem]

/-- C4: index pairing integrity — the merge succeeds and, for every output
position `k < out_len`, there is a source position `p` in one of the two
runs such that `out[k]` carries that run's value at `p` and `out_inds[k]`
carries the very index paired with it at the same position `p`. -/
theorem merge_index_pairing (x_len : Nat) (x x_inds : List Int)
    (y_len : Nat) (y y_inds : List Int)
    (out_len : Nat) (out out_inds : List Int) (i j : Nat)
    (hi : i ≤ x_len) (hj : j ≤ y_len)
    (hx : x_len ≤ x.length) (hxi : x_len ≤ x_inds.length)
    (hy : y_len ≤ y.length) (hyi : y_len ≤ y_inds.length)
    (ho : out_len ≤ out.length) (hoi : out_len ≤ out_inds.length)
    (hlen : out_len ≤ (x_len - i) + (y_len - j)) :
    ∃ s' : MState,
      merge x_len x x_inds y_len y y_inds out_len out out_inds i j = some s' ∧
      ∀ k, k < out_len →
        ∃ p, (i ≤ p ∧ p < x_len ∧ s'.out[k]? = x[p]? ∧ s'.out_inds[k]? = x_inds[p]?) ∨
             (j ≤ p ∧ p < y_len ∧ s'.out[k]? = y[p]? ∧ s'.out_inds[k]? = y_inds[p]?) := by
  obtain ⟨s', hrun, _, _, _, _, _, _, _, _, _, hout, houti⟩ :=
    merge_spec x_len x x_inds y_len y y_inds out_len out out_inds i j
      hi hj hx hxi hy hyi ho hoi hlen
  have hxtlen : ((runPairs x_len x x_inds).drop i).length = x_len - i := by
    rw [List.length_drop, length_runPairs x_len x x_inds hx hxi]
  have hytlen : ((runPairs y_len y y_inds).drop j).length = y_len - j := by
    rw [List.length_drop, length_runPairs y_len y y_inds hy hyi]
  have hMlen : (specMerge ((runPairs x_len x x_inds).drop i)
      ((runPairs y_len y y_inds).drop j)).length = (x_len - i) + (y_len - j) := by
    rw [length_specMerge, hxtlen, hytlen]
  refine ⟨s', hrun, ?_⟩
  intro k hk
  have hks : k < ((specMerge ((runPairs x_len x x_inds).drop i)
      ((runPairs y_len y y_inds).drop j)).take out_len).length := by
    rw [List.length_take, hMlen]
    omega
  obtain ⟨e, he⟩ : ∃ e, ((specMerge ((runPairs x_len x x_inds).drop i)
      ((runPairs y_len y y_inds).drop j)).take out_len)[k]? = some e :=
    ⟨_, List.getElem?_eq_getElem hks⟩
  have hmem : e ∈ specMerge ((runPairs x_len x x_inds).drop i)
      ((runPairs y_len y y_inds).drop j) :=
    List.mem_of_mem_take (List.getElem?_mem he)
  have hout? : s'.out[k]? = some e.1 := by
    rw [hout, List.getElem?_append,
      if_pos (by rw [List.length_map, List.length_take, hMlen]; omega),
      List.getElem?_map, he]
    rfl
  have houti? : s'.out_inds[k]? = some e.2 := by
    rw [houti, List.getElem?_append,
      if_pos (by rw [List.length_map, List.length_take, hMlen]; omega),
      List.getElem?_map, he]
    rfl
  rcases List.mem_append.mp
      ((specMerge_perm ((runPairs x_len x x_inds).drop i)
        ((runPairs y_len y y_inds).drop j)).mem_iff.mp hmem) with hX | hY
  · obtain ⟨p, hcp, hplen, hvp, hip⟩ := runPairs_mem_drop x_len x x_inds i e hx hxi hX
    exact ⟨p, Or.inl ⟨hcp, hplen, by rw [hout?, hvp], by rw [houti?, hip]⟩⟩
  · obtain ⟨p, hcp, hplen, hvp, hip⟩ := runPairs_mem_drop y_len y y_inds j e hy hyi hY
    exact ⟨p, Or.inr ⟨hcp, hplen, by rw [hout?, hvp], by rw [houti?, hip]⟩⟩


theorem take_drop_take (l : List Int) (len c n : Nat) (h : c + n ≤ len) :
    ((l.take len).drop c).take n = (l.drop c).take n := by
  rw [List.take_drop, List.take_drop, List.take_take, min_eq_left (by omega)]

/-- C5: under the caller's preconditions the instrumented merge succeeds,
agrees with `merge`, and every read it records on `x`, `x_inds`, `y`,
`y_inds` is at an index strictly below the corresponding run length, so no
access past an exhausted cursor (and no out-of-bounds failure) occurs. -/
theorem merge_reads_in_bounds (x_len : Nat) (x x_inds : List Int)
    (y_len : Nat) (y y_inds : List Int)
    (out_len : Nat) (out out_inds : List Int) (i j : Nat)
    (hi : i ≤ x_len) (hj : j ≤ y_len)
    (hx : x_len ≤ x.length) (hxi : x_len ≤ x_inds.length)
    (hy : y_len ≤ y.length) (hyi : y_len ≤ y_inds.length)
    (ho : out_len ≤ out.length) (hoi : out_len ≤ out_inds.length)
    (hlen : out_len ≤ (x_len - i) + (y_len - j)) :
    ∃ (s' : MState) (tr : List ReadEv),
      mergeLoopTr x_len y_len 0 out_len ⟨x, x_inds, y, y_inds, out, out_inds, i, j⟩ =
        some (s', tr) ∧
      merge x_len x x_inds y_len y y_inds out_len out out_inds i j = some s' ∧
      ∀ ev ∈ tr, readOK x_len y_len ev := by
  obtain ⟨s', tr, hrun, _, _, _, _, _, _, _, _, _, _, _, htr⟩ :=
    mergeLoopTr_spec x_len y_len out_len 0 ⟨x, x_inds, y, y_inds, out, out_inds, i, j⟩
      hi hj hx hxi hy hyi
      (show 0 + out_len ≤ out.length by omega)
      (show 0 + out_len ≤ out_inds.length by omega)
      hlen
  refine ⟨s', tr, hrun, ?_, htr⟩
  show mergeLoop x_len y_len 0 out_len _ = some s'
  rw [mergeLoop_eq_tr, hrun]
  rfl

/-- C6: exhaustion correctness — if the X run is exhausted (`x_len - i = 0`)
the output prefix is the verbatim slice `y[j : j+out_len]` (indices
likewise), and symmetrically when the Y run is exhausted the output prefix
is the verbatim slice `x[i : i+out_len]` (indices likewise). -/
theorem merge_exhaustion :
    (∀ (x_len : Nat) (x x_inds : List Int) (y_len : Nat) (y y_inds : List Int)
       (out_len : Nat) (out out_inds : List Int) (i j : Nat),
       i ≤ x_len → j ≤ y_len → x_len ≤ x.length → x_len ≤ x_inds.length →
       y_len ≤ y.length → y_len ≤ y_inds.length → out_len ≤ out.length →
       out_len ≤ out_inds.length → x_len - i = 0 → out_len ≤ y_len - j →
       ∃ s' : MState,
         merge x_len x x_inds y_len y y_inds out_len out out_inds i j = some s' ∧
         s'.out.take out_len = (y.drop j).take out_len ∧
         s'.out_inds.take out_len = (y_inds.drop j).take out_len) ∧
    (∀ (x_len : Nat) (x x_inds : List Int) (y_len : Nat) (y y_inds : List Int)
       (out_len : Nat) (out out_inds : List Int) (i j : Nat),
       i ≤ x_len → j ≤ y_len → x_len ≤ x.length → x_len ≤ x_inds.length →
       y_len ≤ y.length → y_len ≤ y_inds.length → out_len ≤ out.length →
       out_len ≤ out_inds.length → y_len - j = 0 → out_len ≤ x_len - i →
       ∃ s' : MState,
         merge x_len x x_inds y_len y y_inds out_len out out_inds i j = some s' ∧
         s'.out.take out_len = (x.drop i).take out_len ∧
         s'.out_inds.take out_len = (x_inds.drop i).take out_len) := by
  constructor
  · intro x_len x x_inds y_len y y_inds out_len out out_inds i j
      hi hj hx hxi hy hyi ho hoi hx0 hylen
    obtain ⟨s', hrun, _, _, _, _, _, _, _, _, _, hout, houti⟩ :=
      merge_spec x_len x x_inds y_len y y_inds out_len out out_inds i j
        hi hj hx hxi hy hyi ho hoi (by omega)
    have hxt : (runPairs x_len x x_inds).drop i = [] :=
      runPairs_drop_nil x_len x x_inds i (by omega) hx hxi
    have hytlen : ((runPairs y_len y y_inds).drop j).length = y_len - j := by
      rw [List.length_drop, length_runPairs y_len y y_inds hy hyi]
    refine ⟨s', hrun, ?_, ?_⟩
    · rw [hout, hxt, specMerge_nil_left,
        List.take_append_of_le_length
          (by rw [List.length_map, List.length_take, hytlen]; omega),
        List.take_of_length_le
          (by rw [List.length_map, List.length_take, hytlen]; omega),
        List.map_take, List.map_drop, runPairs_map_fst y_len y y_inds hy hyi]
      exact take_drop_take y y_len j out_len (by omega)
    · rw [houti, hxt, specMerge_nil_left,
        List.take_append_of_le_length
          (by rw [List.length_map, List.length_take, hytlen]; omega),
        List.take_of_length_le
          (by rw [List.length_map, List.length_take, hytlen]; omega),
        List.map_take, List.map_drop, runPairs_map_snd y_len y y_inds hy hyi]
      exact take_drop_take y_inds y_len j out_len (by omega)
  · intro x_len x x_inds y_len y y_inds out_len out out_inds i j
      hi hj hx hxi hy hyi ho hoi hy0 hxlen
    obtain ⟨s', hrun, _, _, _, _, _, _, _, _, _, hout, houti⟩ :=
      merge_spec x_len x x_inds y_len y y_inds out_len out out_inds i j
        hi hj hx hxi hy hyi ho hoi (by omega)
    have hyt : (runPairs y_len y y_inds).drop j = [] :=
      runPairs_drop_nil y_len y y_inds j (by omega) hy hyi
    have hxtlen : ((runPairs x_len x x_inds).drop i).length = x_len - i := by
      rw [List.length_drop, length_runPairs x_len x x_inds hx hxi]
    refine ⟨s', hrun, ?_, ?_⟩
    · rw [hout, hyt, specMerge_nil_right,
        List.take_append_of_le_length
          (by rw [List.length_map, List.length_take, hxtlen]; omega),
        List.take_of_length_le
          (by rw [List.length_map, List.length_take, hxtlen]; omega),
        List.map_take, List.map_drop, runPairs_map_fst x_len x x_inds hx hxi]
      exact take_drop_take x x_len i out_len (by omega)
    · rw [houti, hyt, specMerge_nil_right,
        List.take_append_of_le_length
          (by rw [List.length_map, List.length_take, hxtlen]; omega),
        List.take_of_length_le
          (by rw [List.length_map, List.length_take, hxtlen]; omega),
        List.map_take, List.map_drop, runPairs_map_snd x_len x x_inds hx hxi]
      exact take_drop_take x_inds x_len i out_len (by omega)

/-- C7: frame property — the merge writes only `out[0..out_len)` and
`out_inds[0..out_len)` (the suffixes from position `out_len` on keep their
prior contents), never modifies the four input buffers, and when
`out_len = 0` the whole state is returned completely unchanged. -/
theorem merge_frame (x_len : Nat) (x x_inds : List Int)
    (y_len : Nat) (y y_inds : List Int)
    (out_len : Nat) (out out_inds : List Int) (i j : Nat)
    (hi : i ≤ x_len) (hj : j ≤ y_len)
    (hx : x_len ≤ x.length) (hxi : x_len ≤ x_inds.length)
    (hy : y_len ≤ y.length) (hyi : y_len ≤ y_inds.length)
    (ho : out_len ≤ out.length) (hoi : out_len ≤ out_inds.length)
    (hlen : out_len ≤ (x_len - i) + (y_len - j)) :
    ∃ s' : MState,
      merge x_len x x_inds y_len y y_inds out_len out out_inds i j = some s' ∧
      s'.x = x ∧ s'.x_inds = x_inds ∧ s'.y = y ∧ s'.y_inds = y_inds ∧
      s'.out.drop out_len = out.drop out_len ∧
      s'.out_inds.drop out_len = out_inds.drop out_len ∧
      (out_len = 0 → s' = ⟨x, x_inds, y, y_inds, out, out_inds, i, j⟩) := by
  obtain ⟨s', hrun, hsx, hsxi, hsy, hsyi, _, _, _, _, _, hout, houti⟩ :=
    merge_spec x_len x x_inds y_len y y_inds out_len out out_inds i j
      hi hj hx hxi hy hyi ho hoi hlen
  have hxtlen : ((runPairs x_len x x_inds).drop i).length = x_len - i := by
    rw [List.length_drop, length_runPairs x_len x x_inds hx hxi]
  have hytlen : ((runPairs y_len y y_inds).drop j).length = y_len - j := by
    rw [List.length_drop, length_runPairs y_len y y_inds hy hyi]
  have hMlen : (specMerge ((runPairs x_len x x_inds).drop i)
      ((runPairs y_len y y_inds).drop j)).length = (x_len - i) + (y_len - j) := by
    rw [length_specMerge, hxtlen, hytlen]
  refine ⟨s', hrun, hsx, hsxi, hsy, hsyi, ?_, ?_, ?_⟩
  · rw [hout]
    exact List.drop_left' (by rw [List.length_map, List.length_take, hMlen]; omega)
  · rw [houti]
    exact List.drop_left' (by rw [List.length_map, List.length_take, hMlen]; omega)
  · intro h0
    subst h0
    have hz : merge x_len x x_inds y_len y y_inds 0 out out_inds i j =
        some ⟨x, x_inds, y, y_inds, out, out_inds, i, j⟩ := rfl
    rw [hz] at hrun
    exact (Option.some.inj hrun).symm

theorem zip_map_fst_snd (l : List (Int × Int)) :
    (l.map Prod.fst).zip (l.map Prod.snd) = l := by
  induction l with
  | nil => rfl
  | cons a l ih => simp [ih]

/-- C3: the merge is stable and X-favoring — first, at any step where both
runs are unexhausted and the two cursor values are equal, the loop emits
the element (and paired index) from X and advances `i`; second, for every
value `v`, the equal-valued pairs in the output prefix are a prefix of
X's equal-valued pairs followed by Y's equal-valued pairs, so X-originated
elements always precede Y-originated ones. -/
theorem merge_stable_x_favoring :
    (∀ (x_len y_len k fuel : Nat) (s : MState) (xv xw : Int),
       s.x[s.i]? = some xv → s.x_inds[s.i]? = some xw → s.y[s.j]? = some xv →
       k < s.out.length → k < s.out_inds.length →
       s.i < x_len → s.j < y_len →
       mergeLoop x_len y_len k (fuel + 1) s =
         mergeLoop x_len y_len (k + 1) fuel
           { s with out := s.out.set k xv, out_inds := s.out_inds.set k xw,
                    i := s.i + 1 }) ∧
    (∀ (x_len : Nat) (x x_inds : List Int) (y_len : Nat) (y y_inds : List Int)
       (out_len : Nat) (out out_inds : List Int) (i j : Nat),
       (x.take x_len).Sorted (· ≤ ·) →
       i ≤ x_len → j ≤ y_len → x_len ≤ x.length → x_len ≤ x_inds.length →
       y_len ≤ y.length → y_len ≤ y_inds.length → out_len ≤ out.length →
       out_len ≤ out_inds.length → out_len ≤ (x_len - i) + (y_len - j) →
       ∃ s' : MState,
         merge x_len x x_inds y_len y y_inds out_len out out_inds i j = some s' ∧
         ∀ v : Int, ∃ n : Nat,
           ((s'.out.take out_len).zip (s'.out_inds.take out_len)).filter (valEq v) =
             (((runPairs x_len x x_inds).drop i).filter (valEq v) ++
              ((runPairs y_len y y_inds).drop j).filter (valEq v)).take n) := by
  constructor
  · intro x_len y_len k fuel s xv xw hxv hxw hyv hko hkoi hix hjy
    have hguard : guardEval x_len y_len s = some false := by
      simp [guardEval, show ¬ s.i = x_len by omega, hjy, hyv, hxv]
    simp only [mergeLoop]
    rw [hguard]
    simp [hxv, hxw, setE, hko, hkoi]
  · intro x_len x x_inds y_len y y_inds out_len out out_inds i j
      hsx hi hj hx hxi hy hyi ho hoi hlen
    obtain ⟨s', hrun, _, _, _, _, _, _, _, _, _, hout, houti⟩ :=
      merge_spec x_len x x_inds y_len y y_inds out_len out out_inds i j
        hi hj hx hxi hy hyi ho hoi hlen
    have hxtlen : ((runPairs x_len x x_inds).drop i).length = x_len - i := by
      rw [List.length_drop, length_runPairs x_len x x_inds hx hxi]
    have hytlen : ((runPairs y_len y y_inds).drop j).length = y_len - j := by
      rw [List.length_drop, length_runPairs y_len y y_inds hy hyi]
    have hMlen : (specMerge ((runPairs x_len x x_inds).drop i)
        ((runPairs y_len y y_inds).drop j)).length = (x_len - i) + (y_len - j) := by
      rw [length_specMerge, hxtlen, hytlen]
    have h1 : s'.out.take out_len =
        ((specMerge ((runPairs x_len x x_inds).drop i)
          ((runPairs y_len y y_inds).drop j)).take out_len).map Prod.fst := by
      rw [hout,
        List.take_append_of_le_length
          (by rw [List.length_map, List.length_take, hMlen]; omega),
        List.take_of_length_le
          (by rw [List.length_map, List.length_take, hMlen]; omega)]
    have h2 : s'.out_inds.take out_len =
        ((specMerge ((runPairs x_len x x_inds).drop i)
          ((runPairs y_len y y_inds).drop j)).take out_len).map Prod.snd := by
      rw [houti,
        List.take_append_of_le_length
          (by rw [List.length_map, List.length_take, hMlen]; omega),
        List.take_of_length_le
          (by rw [List.length_map, List.length_take, hMlen]; omega)]
    have hzip : (s'.out.take out_len).zip (s'.out_inds.take out_len) =
        (specMerge ((runPairs x_len x x_inds).drop i)
          ((runPairs y_len y y_inds).drop j)).take out_len := by
      rw [h1, h2, zip_map_fst_snd]
    refine ⟨s', hrun, ?_⟩
    intro v
    have hfil := specMerge_filter v ((runPairs x_len x x_inds).drop i)
      ((runPairs y_len y y_inds).drop j)
      ((runPairs_pairwise x_len x x_inds hx hxi hsx).drop)
    have hpref : (((specMerge ((runPairs x_len x x_inds).drop i)
        ((runPairs y_len y y_inds).drop j)).take out_len).filter (valEq v)).IsPrefix
        (((specMerge ((runPairs x_len x x_inds).drop i)
        ((runPairs y_len y y_inds).drop j))).filter (valEq v)) :=
      List.IsPrefix.filter (valEq v) (List.take_prefix out_len _)
    rw [hfil] at hpref
    refine ⟨(((specMerge ((runPairs x_len x x_inds).drop i)
        ((runPairs y_len y y_inds).drop j)).take out_len).filter (valEq v)).length, ?_⟩
    rw [hzip]
    exact List.prefix_iff_eq_take.mp hpref

/-- C8: chunked-merge compositionality on the spec's scenario — a call with
`out_len = 2` produces `[1,2]` / `[10,20]`, a second call with cursors
`i = 1`, `j = 1` and `out_len = 4` produces `[3,3,5,6]` / `[11,21,12,22]`,
and the concatenation of the two chunks equals the single full merge's
output `[1,2,3,3,5,6]` / `[10,20,11,21,12,22]`. -/
theorem merge_chunked_scenario :
    merge 3 [1, 3, 5] [10, 11, 12] 3 [2, 3, 6] [20, 21, 22] 2 [0, 0] [0, 0] 0 0 =
      some ⟨[1, 3, 5], [10, 11, 12], [2, 3, 6], [20, 21, 22],
        [1, 2], [10, 20], 1, 1⟩ ∧
    merge 3 [1, 3, 5] [10, 11, 12] 3 [2, 3, 6] [20, 21, 22] 4 [0, 0, 0, 0] [0, 0, 0, 0] 1 1 =
      some ⟨[1, 3, 5], [10, 11, 12], [2, 3, 6], [20, 21, 22],
        [3, 3, 5, 6], [11, 21, 12, 22], 3, 3⟩ ∧
    merge 3 [1, 3, 5] [10, 11, 12] 3 [2, 3, 6] [20, 21, 22] 6
      [0, 0, 0, 0, 0, 0] [0, 0, 0, 0, 0, 0] 0 0 =
      some ⟨[1, 3, 5], [10, 11, 12], [2, 3, 6], [20, 21, 22],
        [1, 2, 3, 3, 5, 6], [10, 20, 11, 21, 12, 22], 3, 3⟩ ∧
    ([1, 2] : List Int) ++ [3, 3, 5, 6] = [1, 2, 3, 3, 5, 6] ∧
    ([10, 20] : List Int) ++ [11, 21, 12, 22] = [10, 20, 11, 21, 12, 22] := by
  refine ⟨by decide, by decide, by decide, by decide, by decide⟩

/-- C9: the merge runs for exactly `out_len` iterations and terminates —
each iteration consumes one element, advancing exactly one of the two
cursors by one, and under the caller's preconditions the final cursors are
in range, non-decreased, and together advanced by exactly `out_len`. -/
theorem merge_termination_cursors :
    (∀ (x_len y_len k fuel : Nat) (s r : MState),
       mergeLoop x_len y_len k (fuel + 1) s = some r →
       ∃ s₁ : MState,
         ((s₁.i = s.i + 1 ∧ s₁.j = s.j) ∨ (s₁.i = s.i ∧ s₁.j = s.j + 1)) ∧
         mergeLoop x_len y_len (k + 1) fuel s₁ = some r) ∧
    (∀ (x_len : Nat) (x x_inds : List Int) (y_len : Nat) (y y_inds : List Int)
       (out_len : Nat) (out out_inds : List Int) (i j : Nat),
       i ≤ x_len → j ≤ y_len → x_len ≤ x.length → x_len ≤ x_inds.length →
       y_len ≤ y.length → y_len ≤ y_inds.length → out_len ≤ out.length →
       out_len ≤ out_inds.length → out_len ≤ (x_len - i) + (y_len - j) →
       ∃ s' : MState,
         merge x_len x x_inds y_len y y_inds out_len out out_inds i j = some s' ∧
         i ≤ s'.i ∧ s'.i ≤ x_len ∧ j ≤ s'.j ∧ s'.j ≤ y_len ∧
         s'.i + s'.j = i + j + out_len) := by
  constructor
  · intro x_len y_len k fuel s r h
    simp only [mergeLoop, Option.bind_eq_bind] at h
    rcases Option.bind_eq_some.mp h with ⟨g, hg, h⟩
    cases g
    · rw [if_neg (by simp)] at h
      rcases Option.bind_eq_some.mp h with ⟨v, hv, h⟩
      rcases Option.bind_eq_some.mp h with ⟨o, ho, h⟩
      rcases Option.bind_eq_some.mp h with ⟨w, hw, h⟩
      rcases Option.bind_eq_some.mp h with ⟨oi, hoi, h⟩
      exact ⟨{ s with out := o, out_inds := oi, i := s.i + 1 }, Or.inl ⟨rfl, rfl⟩, h⟩
    · rw [if_pos rfl] at h
      rcases Option.bind_eq_some.mp h with ⟨v, hv, h⟩
      rcases Option.bind_eq_some.mp h with ⟨o, ho, h⟩
      rcases Option.bind_eq_some.mp h with ⟨w, hw, h⟩
      rcases Option.bind_eq_some.mp h with ⟨oi, hoi, h⟩
      exact ⟨{ s with out := o, out_inds := oi, j := s.j + 1 }, Or.inr ⟨rfl, rfl⟩, h⟩
  · intro x_len x x_inds y_len y y_inds out_len out out_inds i j
      hi hj hx hxi hy hyi ho hoi hlen
    obtain ⟨s', hrun, _, _, _, _, hii, hix2, hjj, hjy2, hsum, _, _⟩ :=
      merge_spec x_len x x_inds y_len y y_inds out_len out out_inds i j
        hi hj hx hxi hy hyi ho hoi hlen
    exact ⟨s', hrun, hii, hix2, hjj, hjy2, hsum⟩

/-- C10: short-circuit semantics of the guard — when X is exhausted
(`i = x_len`) and Y is not, the guard is true and performs no read at all
(in particular `x` is never indexed at `x_len`); when Y is exhausted
(`j ≥ y_len`), the guard is false and performs no read at all (in
particular `y[j]` is never read). -/
theorem merge_guard_short_circuit :
    (∀ (x_len y_len : Nat) (s : MState), s.i = x_len → s.j < y_len →
       guardEvalTr x_len y_len s = some (true, []) ∧
       guardEval x_len y_len s = some true) ∧
    (∀ (x_len y_len : Nat) (s : MState), y_len ≤ s.j →
       guardEvalTr x_len y_len s = some (false, []) ∧
       guardEval x_len y_len s = some false) := by
  constructor
  · intro x_len y_len s h1 h2
    refine ⟨guardEvalTr_true_exhausted x_len y_len s h1 h2, ?_⟩
    simp [guardEval, h1, h2]
  · intro x_len y_len s h
    refine ⟨guardEvalTr_false_y_done x_len y_len s (by omega), ?_⟩
    simp [guardEval, show ¬ s.j < y_len by omega]

theorem merge_sorted_prefix_spec_witness :
    ∃ s' : MState,
      merge 3 [1, 3, 5] [10, 11, 12] 3 [2, 3, 6] [20, 21, 22] 6
        [0, 0, 0, 0, 0, 0] [0, 0, 0, 0, 0, 0] 0 0 = some s' ∧
      (s'.out.take 6).Sorted (· ≤ ·) ∧
      ∀ z : List Int, z.Sorted (· ≤ ·) →
        z.Perm ((([1, 3, 5] : List Int).take 3).drop 0 ++
          (([2, 3, 6] : List Int).take 3).drop 0) →
        s'.out.take 6 = z.take 6 :=
  merge_sorted_prefix_spec 3 [1, 3, 5] [10, 11, 12] 3 [2, 3, 6] [20, 21, 22] 6
    [0, 0, 0, 0, 0, 0] [0, 0, 0, 0, 0, 0] 0 0
    (by decide) (by decide) (by decide) (by decide) (by decide) (by decide)
    (by decide) (by decide) (by decide) (by decide) (by decide)

theorem merge_stable_x_favoring_witness :
    (mergeLoop 1 1 0 1 ⟨[3], [11], [3], [21], [0], [0], 0, 0⟩ =
      mergeLoop 1 1 1 0 ⟨[3], [11], [3], [21], [3], [11], 1, 0⟩) ∧
    (∃ s' : MState,
      merge 3 [1, 3, 5] [10, 11, 12] 3 [2, 3, 6] [20, 21, 22] 6
        [0, 0, 0, 0, 0, 0] [0, 0, 0, 0, 0, 0] 0 0 = some s' ∧
      ∀ v : Int, ∃ n : Nat,
        ((s'.out.take 6).zip (s'.out_inds.take 6)).filter (valEq v) =
          (((runPairs 3 [1, 3, 5] [10, 11, 12]).drop 0).filter (valEq v) ++
           ((runPairs 3 [2, 3, 6] [20, 21, 22]).drop 0).filter (valEq v)).take n) :=
  ⟨merge_stable_x_favoring.1 1 1 0 0 ⟨[3], [11], [3], [21], [0], [0], 0, 0⟩ 3 11
      (by decide) (by decide) (by decide) (by decide) (by decide) (by decide) (by decide),
   merge_stable_x_favoring.2 3 [1, 3, 5] [10, 11, 12] 3 [2, 3, 6] [20, 21, 22] 6
      [0, 0, 0, 0, 0, 0] [0, 0, 0, 0, 0, 0] 0 0
      (by decide) (by decide) (by decide) (by decide) (by decide) (by decide)
      (by decide) (by decide) (by decide) (by decide)⟩

theorem merge_index_pairing_witness :
    ∃ s' : MState,
      merge 3 [1, 3, 5] [10, 11, 12] 3 [2, 3, 6] [20, 21, 22] 6
        [0, 0, 0, 0, 0, 0] [0, 0, 0, 0, 0, 0] 0 0 = some s' ∧
      ∀ k, k < 6 →
        ∃ p, (0 ≤ p ∧ p < 3 ∧ s'.out[k]? = ([1, 3, 5] : List Int)[p]? ∧
                s'.out_inds[k]? = ([10, 11, 12] : List Int)[p]?) ∨
             (0 ≤ p ∧ p < 3 ∧ s'.out[k]? = ([2, 3, 6] : List Int)[p]? ∧
                s'.out_inds[k]? = ([20, 21, 22] : List Int)[p]?) :=
  merge_index_pairing 3 [1, 3, 5] [10, 11, 12] 3 [2, 3, 6] [20, 21, 22] 6
    [0, 0, 0, 0, 0, 0] [0, 0, 0, 0, 0, 0] 0 0
    (by decide) (by decide) (by decide) (by decide) (by decide) (by decide)
    (by decide) (by decide) (by decide)

theorem merge_reads_in_bounds_witness :
    ∃ (s' : MState) (tr : List ReadEv),
      mergeLoopTr 3 3 0 6 ⟨[1, 3, 5], [10, 11, 12], [2, 3, 6], [20, 21, 22],
        [0, 0, 0, 0, 0, 0], [0, 0, 0, 0, 0, 0], 0, 0⟩ = some (s', tr) ∧
      merge 3 [1, 3, 5] [10, 11, 12] 3 [2, 3, 6] [20, 21, 22] 6
        [0, 0, 0, 0, 0, 0] [0, 0, 0, 0, 0, 0] 0 0 = some s' ∧
      ∀ ev ∈ tr, readOK 3 3 ev :=
  merge_reads_in_bounds 3 [1, 3, 5] [10, 11, 12] 3 [2, 3, 6] [20, 21, 22] 6
    [0, 0, 0, 0, 0, 0] [0, 0, 0, 0, 0, 0] 0 0
    (by decide) (by decide) (by decide) (by decide) (by decide) (by decide)
    (by decide) (by decide) (by decide)

theorem merge_exhaustion_witness :
    (∃ s' : MState,
      merge 0 [] [] 2 [7, 9] [70, 90] 2 [0, 0] [0, 0] 0 0 = some s' ∧
      s'.out.take 2 = (([7, 9] : List Int).drop 0).take 2 ∧
      s'.out_inds.take 2 = (([70, 90] : List Int).drop 0).take 2) ∧
    (∃ s' : MState,
      merge 2 [7, 9] [70, 90] 0 [] [] 2 [0, 0] [0, 0] 0 0 = some s' ∧
      s'.out.take 2 = (([7, 9] : List Int).drop 0).take 2 ∧
      s'.out_inds.take 2 = (([70, 90] : List Int).drop 0).take 2) :=
  ⟨merge_exhaustion.1 0 [] [] 2 [7, 9] [70, 90] 2 [0, 0] [0, 0] 0 0
      (by decide) (by decide) (by decide) (by decide) (by decide) (by decide)
      (by decide) (by decide) (by decide) (by decide),
   merge_exhaustion.2 2 [7, 9] [70, 90] 0 [] [] 2 [0, 0] [0, 0] 0 0
      (by decide) (by decide) (by decide) (by decide) (by decide) (by decide)
      (by decide) (by decide) (by decide) (by decide)⟩

theorem merge_frame_witness :
    ∃ s' : MState,
      merge 3 [1, 3, 5] [10, 11, 12] 3 [2, 3, 6] [20, 21, 22] 0 [5, 5] [5, 5] 1 2 = some s' ∧
      s'.x = [1, 3, 5] ∧ s'.x_inds = [10, 11, 12] ∧ s'.y = [2, 3, 6] ∧
      s'.y_inds = [20, 21, 22] ∧
      s'.out.drop 0 = ([5, 5] : List Int).drop 0 ∧
      s'.out_inds.drop 0 = ([5, 5] : List Int).drop 0 ∧
      (0 = 0 → s' = ⟨[1, 3, 5], [10, 11, 12], [2, 3, 6], [20, 21, 22], [5, 5], [5, 5], 1, 2⟩) :=
  merge_frame 3 [1, 3, 5] [10, 11, 12] 3 [2, 3, 6] [20, 21, 22] 0 [5, 5] [5, 5] 1 2
    (by decide) (by decide) (by decide) (by decide) (by decide) (by decide)
    (by decide) (by decide) (by decide)

theorem merge_termination_cursors_witness :
    (∃ s₁ : MState,
      ((s₁.i = 0 + 1 ∧ s₁.j = 0) ∨ (s₁.i = 0 ∧ s₁.j = 0 + 1)) ∧
      mergeLoop 1 1 1 0 s₁ = some ⟨[3], [11], [3], [21], [3], [11], 1, 0⟩) ∧
    (∃ s' : MState,
      merge 3 [1, 3, 5] [10, 11, 12] 3 [2, 3, 6] [20, 21, 22] 6
        [0, 0, 0, 0, 0, 0] [0, 0, 0, 0, 0, 0] 0 0 = some s' ∧
      0 ≤ s'.i ∧ s'.i ≤ 3 ∧ 0 ≤ s'.j ∧ s'.j ≤ 3 ∧ s'.i + s'.j = 0 + 0 + 6) :=
  ⟨merge_termination_cursors.1 1 1 0 0 ⟨[3], [11], [3], [21], [0], [0], 0, 0⟩
      ⟨[3], [11], [3], [21], [3], [11], 1, 0⟩ (by decide),
   merge_termination_cursors.2 3 [1, 3, 5] [10, 11, 12] 3 [2, 3, 6] [20, 21, 22] 6
      [0, 0, 0, 0, 0, 0] [0, 0, 0, 0, 0, 0] 0 0
      (by decide) (by decide) (by decide) (by decide) (by decide) (by decide)
      (by decide) (by decide) (by decide)⟩

theorem merge_guard_short_circuit_witness :
    (guardEvalTr 0 1 ⟨[], [], [2], [20], [0], [0], 0, 0⟩ = some (true, []) ∧
     guardEval 0 1 ⟨[], [], [2], [20], [0], [0], 0, 0⟩ = some true) ∧
    (guardEvalTr 1 0 ⟨[1], [10], [], [], [0], [0], 0, 0⟩ = some (false, []) ∧
     guardEval 1 0 ⟨[1], [10], [], [], [0], [0], 0, 0⟩ = some false) :=
  ⟨merge_guard_short_circuit.1 0 1 ⟨[], [], [2], [20], [0], [0], 0, 0⟩
      (by decide) (by decide),
   merge_guard_short_circuit.2 1 0 ⟨[1], [10], [], [], [0], [0], 0, 0⟩ (by decide)⟩

end GroopM
